import Mathlib

/-!
Verification of the Strands Up word-search engine.

The definitions below are a shallow embedding of the interactive
word-selection and validation engine of the game: the `GameBoard`
component's state and handlers (`isAdjacent`, `pathToString`,
`handleCellClick`, `checkForWord`, the cell `onClick` guard, the
board-reset effect) together with the `GameContainer` fetch handler
(`handleGenerateGame`) and the API service (`generateGame`).

JavaScript strings are modelled as lists of characters (`Str`); the
decimal rendering of a number inside a template literal is modelled by
the structural function `numChars`.
-/

namespace StrandsUp

/-- A JavaScript string, modelled as its list of characters. -/
abbrev Str := List Char

/-- A grid coordinate: zero-based (row, column). -/
abbrev Pos := Nat × Nat

/-- Decimal rendering of a natural number, fuel-based so that it is
structurally recursive: accumulates the digit characters of n (most
significant first) in front of acc. -/
def numCharsCore : Nat → Nat → List Char → List Char
  | 0, _, acc => acc
  | fuel + 1, n, acc =>
    if n < 10 then Nat.digitChar n :: acc
    else numCharsCore fuel (n / 10) (Nat.digitChar (n % 10) :: acc)

/-- Decimal rendering of a natural number, as produced by a template
literal interpolation of a plain number. -/
def numChars (n : Nat) : Str := numCharsCore (n + 1) n []

/-- The string key of a position, as in the template literal joining the
row and the column by a comma. -/
def posKey (p : Pos) : Str := numChars p.1 ++ ',' :: numChars p.2

/-- Converts a path to a string for Set storage: map every position to
its key and join with a bar character. -/
def pathToString (path : List Pos) : Str :=
  List.intercalate ['|'] (path.map posKey)

/-- Lower-casing of a string, modelling toLowerCase. -/
def lowerStr (s : Str) : Str := s.map Char.toLower

/-- A word placement: the word and the exact ordered cell path that
spells it in the grid. -/
structure Placement where
  word : Str
  path : List Pos
deriving DecidableEq

/-- The placement table of one puzzle: the spangram placement and the
placements of the ordinary theme words. -/
structure PlacementInfo where
  spangram : Placement
  words : List Placement
deriving DecidableEq

/-- The board produced by the puzzle provider. -/
structure Board where
  grid : List (List Str)
  words : List Str
  spangram : Str
  theme : Str
  placementInfo : PlacementInfo
deriving DecidableEq

/-- The type tag of the transient feedback message. -/
inductive MsgType where
  | success
  | info
deriving DecidableEq

/-- The mutable selection state of the game board component:
the live selection path, the set of found words, the set of keys of
locked cells, and the transient message. -/
structure GameState where
  selectedCells : List Pos
  foundWords : Finset Str
  foundPaths : Finset Str
  messageText : Str
  messageType : Option MsgType
deriving DecidableEq

/-- The selection state a freshly mounted board starts from. -/
def initialGameState : GameState :=
  { selectedCells := []
    foundWords := ∅
    foundPaths := ∅
    messageText := []
    messageType := none }

/-- The retry notice text. -/
def tryAgainText : Str := ("Try again!").toList

/-- The spangram success notice text. -/
def spangramFoundText : Str := ("Congratulations! You found the spangram!").toList

/-- The ordinary-word success notice text. -/
def wordFoundText (w : Str) : Str :=
  ("You found \"").toList ++ w ++ ("\"!").toList

/-- The delayed completion notice text. -/
def allWordsFoundText : Str := ("Congratulations! You found all the words!").toList

/-- Checks if two cells are adjacent (including diagonals): both the row
distance and the column distance are at most 1 and the cells differ. -/
def isAdjacent (pos1 pos2 : Pos) : Bool :=
  let rowDiff := ((pos1.1 : Int) - (pos2.1 : Int)).natAbs
  let colDiff := ((pos1.2 : Int) - (pos2.2 : Int)).natAbs
  decide (rowDiff ≤ 1) && decide (colDiff ≤ 1) && !(rowDiff == 0 && colDiff == 0)

/-- The candidate word spelled by a path: the grid letters at each
position, concatenated. -/
def selectedWordOf (grid : List (List Str)) (cells : List Pos) : Str :=
  (cells.map (fun p => (grid.getD p.1 []).getD p.2 [])).flatten

/-- The list of all placements checked by validation: the spangram
placement first, then the theme-word placements. -/
def allPlacements (spangram : Str) (pinfo : PlacementInfo) : List Placement :=
  { word := spangram, path := pinfo.spangram.path } ::
    pinfo.words.map (fun w => { word := w.word, path := w.path })

/-- Splits a path string on the bar separator, reverses the pieces and
joins them again: the reversed-path string built by validation. -/
def reverseJoined (s : Str) : Str :=
  List.intercalate ['|'] ((s.splitOn '|').reverse)

/-- The placement matched by a completed path, if any: the first
placement whose word equals the candidate string case-insensitively and
whose stored path string equals the clicked path string either directly
or after reversal. -/
def findPlacement (grid : List (List Str)) (spangram : Str) (pinfo : PlacementInfo)
    (cells : List Pos) : Option Placement :=
  let selectedWord := selectedWordOf grid cells
  let pathStr := pathToString cells
  (allPlacements spangram pinfo).find? fun pl =>
    let correctPathStr := pathToString pl.path
    lowerStr pl.word == lowerStr selectedWord &&
      (pathStr == correctPathStr || pathStr == reverseJoined correctPathStr)

/-- Validates a completed path against the placement table and updates
the state. The boolean records whether the delayed all-words-found
notice was scheduled by this call. -/
def checkForWord (grid : List (List Str)) (spangram : Str) (pinfo : PlacementInfo)
    (cells : List Pos) (s : GameState) : GameState × Bool :=
  match findPlacement grid spangram pinfo cells with
  | some pl =>
    if pl.word ∈ s.foundWords then
      if cells.isEmpty then ({ s with selectedCells := [] }, false)
      else
        ({ s with selectedCells := []
                  messageText := tryAgainText
                  messageType := some MsgType.info }, false)
    else
      let newFoundWords := insert pl.word s.foundWords
      let newFoundPaths := cells.foldl (fun fp p => insert (posKey p) fp) s.foundPaths
      ({ selectedCells := []
         foundWords := newFoundWords
         foundPaths := newFoundPaths
         messageText := if pl.word == spangram then spangramFoundText else wordFoundText pl.word
         messageType := some MsgType.success },
       newFoundWords.card == (allPlacements spangram pinfo).length)
  | none =>
    if cells.isEmpty then ({ s with selectedCells := [] }, false)
    else
      ({ s with selectedCells := []
                messageText := tryAgainText
                messageType := some MsgType.info }, false)

/-- The delayed all-words-found notice firing: only the transient
message changes. -/
def fireAllFoundNotice (s : GameState) : GameState :=
  { s with messageText := allWordsFoundText, messageType := some MsgType.success }

/-- Handles a cell click: a second click on the last selected cell
completes the word; a click on a cell that is not adjacent to the last
one, or whose key is among the found paths, clears the selection;
otherwise the cell is appended to the selection. -/
def handleCellClick (grid : List (List Str)) (spangram : Str) (pinfo : PlacementInfo)
    (s : GameState) (p : Pos) : GameState × Bool :=
  match s.selectedCells.getLast? with
  | some lastCell =>
    if lastCell = p then
      checkForWord grid spangram pinfo s.selectedCells s
    else if !(isAdjacent lastCell p) || decide (posKey p ∈ s.foundPaths) then
      ({ s with selectedCells := [] }, false)
    else
      ({ s with selectedCells := s.selectedCells ++ [p] }, false)
  | none => ({ s with selectedCells := s.selectedCells ++ [p] }, false)

/-- The click entry point of a rendered cell: clicks on cells whose key
is among the found paths are filtered out before the handler runs. This
is the gesture-level selectCell operation. -/
def onCellClick (grid : List (List Str)) (spangram : Str) (pinfo : PlacementInfo)
    (s : GameState) (p : Pos) : GameState × Bool :=
  if posKey p ∈ s.foundPaths then (s, false)
  else handleCellClick grid spangram pinfo s p

/-- Runs a sequence of cell-click gestures from a state. -/
def runClicks (grid : List (List Str)) (spangram : Str) (pinfo : PlacementInfo)
    (s : GameState) (clicks : List Pos) : GameState :=
  clicks.foldl (fun st p => (onCellClick grid spangram pinfo st p).1) s

/-- The reset effect that runs when a new board replaces the current
one: the selection, the found words and the found paths are emptied.
The transient message state is not touched by this effect. -/
def resetOnNewBoard (s : GameState) : GameState :=
  { s with selectedCells := [], foundWords := ∅, foundPaths := ∅ }

/-- The state of the game container: the credential field, the current
board, the surfaced error, the loading flag, and the board component's
selection state. -/
structure ContainerState where
  apiKey : Str
  board : Option Board
  error : Option Str
  isLoading : Bool
  game : GameState
deriving DecidableEq

/-- The outcome of the provider request as seen by the API service: the
response flag and fields. -/
structure ApiResponse where
  ok : Bool
  statusText : Str
  detail : Option Str
  dataBoard : List (List Str)
  dataWords : List Str
  dataSpangram : Str
  dataTheme : Str
  dataPlacementSpangram : Placement
  dataPlacementWords : List Placement
deriving DecidableEq

/-- The generic failure text built from the response status text. -/
def failedGenerateText (statusText : Str) : Str :=
  ("Failed to generate game: ").toList ++ statusText

/-- The API service: on a non-ok response it fails with the error detail
when present, or with the generic failure text; on an ok response it
assembles the board from the response data. -/
def generateGame (resp : ApiResponse) : Except Str Board :=
  if resp.ok then
    Except.ok
      { grid := resp.dataBoard
        words := resp.dataWords
        spangram := resp.dataSpangram
        theme := resp.dataTheme
        placementInfo :=
          { spangram := resp.dataPlacementSpangram
            words := resp.dataPlacementWords } }
  else
    Except.error
      (match resp.detail with
       | some d => d
       | none => failedGenerateText resp.statusText)

/-- The missing-credential message of the container. -/
def enterApiKeyText : Str := ("Please enter your API key").toList

/-- The container's generate handler, given the outcome of the provider
request: with an empty credential it only surfaces the credential
message; on success it installs the new board (which resets the board
component's selection state); on failure it surfaces the error and
leaves the board and the game state untouched. -/
def handleGenerateGame (s : ContainerState) (result : Except Str Board) : ContainerState :=
  if s.apiKey.isEmpty then { s with error := some enterApiKeyText }
  else
    match result with
    | Except.ok newBoard =>
      { s with board := some newBoard
               error := none
               isLoading := false
               game := resetOnNewBoard s.game }
    | Except.error e => { s with error := some e, isLoading := false }

/-! Support lemmas about the decimal rendering and the path strings. -/

lemma digitChar_injOn : ∀ a, a < 10 → ∀ b, b < 10 →
    Nat.digitChar a = Nat.digitChar b → a = b := by
  decide

lemma digitChar_ne_sep : ∀ a, a < 10 →
    Nat.digitChar a ≠ ',' ∧ Nat.digitChar a ≠ '|' := by
  decide

lemma numCharsCore_eq (fuel : Nat) : ∀ n acc, n < fuel →
    numCharsCore fuel n acc =
      (if n = 0 then ['0'] else (Nat.digits 10 n).reverse.map Nat.digitChar) ++ acc := by
  induction fuel with
  | zero => intro n acc h; omega
  | succ fuel ih =>
    intro n acc h
    simp only [numCharsCore]
    by_cases h10 : n < 10
    · rw [if_pos h10]
      by_cases h0 : n = 0
      · subst h0; simp [Nat.digitChar]
      · rw [if_neg h0, Nat.digits_of_lt 10 n h0 h10]
        simp
    · rw [if_neg h10]
      have hn0 : 0 < n := by omega
      have hq0 : 0 < n / 10 := Nat.div_pos (by omega) (by omega)
      have hd : n / 10 < fuel := by
        have := Nat.div_lt_self hn0 (by omega : 1 < 10)
        omega
      rw [ih (n / 10) _ hd, if_neg hq0.ne', if_neg hn0.ne',
        Nat.digits_def' (by norm_num : (1 : Nat) < 10) hn0]
      simp [List.map_append]

lemma numChars_eq (n : Nat) :
    numChars n = if n = 0 then ['0'] else (Nat.digits 10 n).reverse.map Nat.digitChar := by
  have h := numCharsCore_eq (n + 1) n [] (by omega)
  simpa [numChars] using h

lemma numChars_ne_nil (n : Nat) : numChars n ≠ [] := by
  rw [numChars_eq]
  by_cases h0 : n = 0
  · simp [h0]
  · simp only [if_neg h0]
    have : Nat.digits 10 n ≠ [] := Nat.digits_ne_nil_iff_ne_zero.mpr h0
    simp [this]

lemma mem_numChars_ne_sep (n : Nat) : ∀ c ∈ numChars n, c ≠ ',' ∧ c ≠ '|' := by
  intro c hc
  rw [numChars_eq] at hc
  by_cases h0 : n = 0
  · rw [if_pos h0] at hc
    simp only [List.mem_singleton] at hc
    subst hc; constructor <;> decide
  · rw [if_neg h0] at hc
    simp only [List.mem_map, List.mem_reverse] at hc
    obtain ⟨d, hd, rfl⟩ := hc
    exact digitChar_ne_sep d (Nat.digits_lt_base (by norm_num) hd)

lemma map_digitChar_injOn : ∀ (l1 : List Nat), (∀ d ∈ l1, d < 10) →
    ∀ (l2 : List Nat), (∀ d ∈ l2, d < 10) →
    l1.map Nat.digitChar = l2.map Nat.digitChar → l1 = l2 := by
  intro l1
  induction l1 with
  | nil =>
    intro _ l2 _ h
    cases l2 with
    | nil => rfl
    | cons b t => simp at h
  | cons a t ih =>
    intro h1 l2 h2 h
    cases l2 with
    | nil => simp at h
    | cons b t2 =>
      simp only [List.map_cons, List.cons.injEq] at h
      have ha : a = b :=
        digitChar_injOn a (h1 a (by simp)) b (h2 b (by simp)) h.1
      have ht : t = t2 :=
        ih (fun d hd => h1 d (by simp [hd])) t2 (fun d hd => h2 d (by simp [hd])) h.2
      rw [ha, ht]

lemma numChars_injective : Function.Injective numChars := by
  intro m n h
  rw [numChars_eq, numChars_eq] at h
  by_cases hm : m = 0 <;> by_cases hn : n = 0
  · rw [hm, hn]
  · exfalso
    rw [if_pos hm, if_neg hn] at h
    have hlen : ((Nat.digits 10 n).reverse.map Nat.digitChar).length = 1 := by
      rw [← h]; rfl
    simp only [List.length_map, List.length_reverse] at hlen
    obtain ⟨d, hd⟩ := List.length_eq_one.mp hlen
    rw [hd] at h
    simp only [List.reverse_singleton, List.map_cons, List.map_nil] at h
    have hd10 : d < 10 :=
      Nat.digits_lt_base (by norm_num) (by rw [hd]; simp)
    have hd0 : d = 0 := by
      have hch : ('0' : Char) = Nat.digitChar d := by
        simpa using h
      have hzero : Nat.digitChar 0 = '0' := by decide
      exact (digitChar_injOn 0 (by norm_num) d hd10 (hzero.trans hch)).symm
    have hofd := Nat.ofDigits_digits 10 n
    rw [hd, hd0] at hofd
    simp [Nat.ofDigits] at hofd
    omega
  · exfalso
    rw [if_neg hm, if_pos hn] at h
    have hlen : ((Nat.digits 10 m).reverse.map Nat.digitChar).length = 1 := by
      rw [h]; rfl
    simp only [List.length_map, List.length_reverse] at hlen
    obtain ⟨d, hd⟩ := List.length_eq_one.mp hlen
    rw [hd] at h
    simp only [List.reverse_singleton, List.map_cons, List.map_nil] at h
    have hd10 : d < 10 :=
      Nat.digits_lt_base (by norm_num) (by rw [hd]; simp)
    have hd0 : d = 0 := by
      have hch : ('0' : Char) = Nat.digitChar d := by
        simpa using h.symm
      have hzero : Nat.digitChar 0 = '0' := by decide
      exact (digitChar_injOn 0 (by norm_num) d hd10 (hzero.trans hch)).symm
    have hofd := Nat.ofDigits_digits 10 m
    rw [hd, hd0] at hofd
    simp [Nat.ofDigits] at hofd
    omega
  · rw [if_neg hm, if_neg hn] at h
    have hrev : (Nat.digits 10 m).reverse = (Nat.digits 10 n).reverse :=
      map_digitChar_injOn _
        (fun d hd => Nat.digits_lt_base (by norm_num) (List.mem_reverse.mp hd)) _
        (fun d hd => Nat.digits_lt_base (by norm_num) (List.mem_reverse.mp hd)) h
    have : Nat.digits 10 m = Nat.digits 10 n := by
      have := congrArg List.reverse hrev
      simpa using this
    exact Nat.digits_inj_iff.mp this

lemma posKey_ne_nil (p : Pos) : posKey p ≠ [] := by
  simp [posKey]

lemma bar_not_mem_posKey (p : Pos) : '|' ∉ posKey p := by
  intro h
  simp only [posKey, List.mem_append, List.mem_cons] at h
  rcases h with h | h | h
  · exact (mem_numChars_ne_sep _ _ h).2 rfl
  · exact absurd h (by decide)
  · exact (mem_numChars_ne_sep _ _ h).2 rfl

lemma splitOn_posKey (p : Pos) :
    (posKey p).splitOn ',' = [numChars p.1, numChars p.2] := by
  show List.splitOnP (· == ',') (numChars p.1 ++ ',' :: numChars p.2) = _
  rw [List.splitOnP_first _ _
    (fun x hx => by simp [(mem_numChars_ne_sep _ _ hx).1]) ',' (by simp) _]
  rw [List.splitOnP_eq_single _ _
    (fun x hx => by simp [(mem_numChars_ne_sep _ _ hx).1])]

lemma posKey_injective : Function.Injective posKey := by
  intro p q h
  have h2 := congrArg (List.splitOn ',') h
  rw [splitOn_posKey, splitOn_posKey] at h2
  simp only [List.cons.injEq, and_true] at h2
  exact Prod.ext (numChars_injective h2.1) (numChars_injective h2.2)

lemma splitOn_pathToString {path : List Pos} (h : path ≠ []) :
    (pathToString path).splitOn '|' = path.map posKey := by
  have := List.splitOn_intercalate (path.map posKey) '|'
    (fun l hl => by
      simp only [List.mem_map] at hl
      obtain ⟨p, _, rfl⟩ := hl
      exact bar_not_mem_posKey p)
    (by simpa using h)
  simpa [pathToString] using this

lemma pathToString_injective : Function.Injective pathToString := by
  intro p q h
  by_cases hp : p = [] <;> by_cases hq : q = []
  · rw [hp, hq]
  · exfalso
    subst hp
    have hnil : pathToString ([] : List Pos) = ([] : Str) := rfl
    rw [hnil] at h
    have h2 := congrArg (List.splitOn '|') h
    rw [splitOn_pathToString hq, List.splitOn_nil] at h2
    cases q with
    | nil => exact hq rfl
    | cons a t =>
      simp only [List.map_cons, List.cons.injEq] at h2
      exact posKey_ne_nil a h2.1.symm
  · exfalso
    subst hq
    have hnil : pathToString ([] : List Pos) = ([] : Str) := rfl
    rw [hnil] at h
    have h2 := congrArg (List.splitOn '|') h
    rw [splitOn_pathToString hp, List.splitOn_nil] at h2
    cases p with
    | nil => exact hp rfl
    | cons a t =>
      simp only [List.map_cons, List.cons.injEq] at h2
      exact posKey_ne_nil a h2.1
  · have h2 := congrArg (List.splitOn '|') h
    rw [splitOn_pathToString hp, splitOn_pathToString hq] at h2
    exact List.map_injective_iff.mpr posKey_injective h2

lemma reverseJoined_pathToString (path : List Pos) :
    reverseJoined (pathToString path) = pathToString path.reverse := by
  by_cases hp : path = []
  · subst hp
    rfl
  · rw [reverseJoined, splitOn_pathToString hp]
    simp [pathToString, List.map_reverse]

/-! Concrete demonstration data: the 4x4 CAT / CATS puzzle. -/

/-- A concrete 4x4 grid. -/
def demoGrid : List (List Str) :=
  [[['C'], ['A'], ['T'], ['S']],
   [['O'], ['X'], ['X'], ['X']],
   [['X'], ['X'], ['X'], ['X']],
   [['X'], ['X'], ['X'], ['X']]]

/-- The placement of the theme word CAT along the top row. -/
def catPlacement : Placement :=
  { word := ("CAT").toList, path := [(0, 0), (0, 1), (0, 2)] }

/-- The placement of the spangram CATS along the top row. -/
def catsPlacement : Placement :=
  { word := ("CATS").toList, path := [(0, 0), (0, 1), (0, 2), (0, 3)] }

/-- The demo spangram word. -/
def demoSpangram : Str := ("CATS").toList

/-- The demo placement table. -/
def demoPinfo : PlacementInfo := { spangram := catsPlacement, words := [catPlacement] }

/-- A state in which the cell (0, 0) is locked. -/
def lockedState : GameState :=
  { initialGameState with foundPaths := {posKey (0, 0)} }

/-- A state in which the single cell (0, 0) is selected. -/
def startedState : GameState :=
  { initialGameState with selectedCells := [(0, 0)] }

/-- The zig-zag click sequence that revisits the cell (0, 0). -/
def zigzagClicks : List Pos := [(0, 0), (1, 1), (0, 0)]

/-- C1: word validation finds a matching placement iff some placement
(spangram or theme word) has a word equal to the candidate string formed
by concatenating the grid letters along the clicked path, compared
case-insensitively, and the clicked path equals that placement's stored
path position-by-position either in forward order or in exactly reversed
order; a path matching neither orientation is rejected. -/
theorem c1_validation_accepts_iff (grid : List (List Str)) (spangram : Str)
    (pinfo : PlacementInfo) (cells : List Pos) :
    (findPlacement grid spangram pinfo cells).isSome ↔
      ∃ pl ∈ allPlacements spangram pinfo,
        lowerStr pl.word = lowerStr (selectedWordOf grid cells) ∧
        (cells = pl.path ∨ cells = pl.path.reverse) := by
  rw [findPlacement, List.find?_isSome]
  constructor
  · rintro ⟨pl, hmem, hp⟩
    refine ⟨pl, hmem, ?_⟩
    simp only [Bool.and_eq_true, Bool.or_eq_true, beq_iff_eq] at hp
    refine ⟨hp.1, ?_⟩
    rcases hp.2 with h | h
    · exact Or.inl (pathToString_injective h)
    · rw [reverseJoined_pathToString] at h
      exact Or.inr (pathToString_injective h)
  · rintro ⟨pl, hmem, hw, hpath⟩
    refine ⟨pl, hmem, ?_⟩
    simp only [Bool.and_eq_true, Bool.or_eq_true, beq_iff_eq]
    refine ⟨hw, ?_⟩
    rcases hpath with h | h
    · exact Or.inl (by rw [h])
    · exact Or.inr (by rw [reverseJoined_pathToString, ← h])

/-- C2: a click gesture on a locked cell (a cell whose key is among the
found paths) is a no-op: the whole state is returned unchanged and no
completion notice is scheduled, whatever the current selection is. -/
theorem c2_locked_click_noop (grid : List (List Str)) (spangram : Str)
    (pinfo : PlacementInfo) (s : GameState) (p : Pos)
    (h : posKey p ∈ s.foundPaths) :
    onCellClick grid spangram pinfo s p = (s, false) := by
  simp [onCellClick, h]

/-- Witness for C2 at a concrete locked cell with an empty selection. -/
theorem c2_locked_click_noop_witness :
    posKey (0, 0) ∈ lockedState.foundPaths ∧
      onCellClick demoGrid demoSpangram demoPinfo lockedState (0, 0) = (lockedState, false) :=
  ⟨Finset.mem_singleton_self _,
    c2_locked_click_noop demoGrid demoSpangram demoPinfo lockedState (0, 0)
      (Finset.mem_singleton_self _)⟩

/-- C3: when the selection is non-empty and the clicked cell differs
from the last selected cell and is either not 8-directionally adjacent
to it or has its key among the found paths, the handler clears the
selection and changes nothing else: no validation runs, the found words,
found paths and message are untouched. -/
theorem c3_abort_clears_selection (grid : List (List Str)) (spangram : Str)
    (pinfo : PlacementInfo) (s : GameState) (p lastCell : Pos)
    (hlast : s.selectedCells.getLast? = some lastCell)
    (hne : p ≠ lastCell)
    (hcond : isAdjacent lastCell p = false ∨ posKey p ∈ s.foundPaths) :
    handleCellClick grid spangram pinfo s p = ({ s with selectedCells := [] }, false) := by
  simp only [handleCellClick, hlast]
  have h1 : ¬(lastCell = p) := fun hh => hne hh.symm
  rcases hcond with h | h
  · simp [h1, h]
  · simp [h1, h]

/-- Witness for C3 at a concrete non-adjacent click. -/
theorem c3_abort_clears_selection_witness :
    startedState.selectedCells.getLast? = some (0, 0) ∧
    ((2, 2) : Pos) ≠ (0, 0) ∧
    isAdjacent (0, 0) (2, 2) = false ∧
    handleCellClick demoGrid demoSpangram demoPinfo startedState (2, 2) =
      ({ startedState with selectedCells := [] }, false) :=
  ⟨rfl, by decide, by decide,
    c3_abort_clears_selection demoGrid demoSpangram demoPinfo startedState (2, 2) (0, 0) rfl
      (by decide) (Or.inl (by decide))⟩

/-- C8: a click handled with an empty selection always results in the
selection holding exactly the clicked cell. -/
theorem c8_first_click_starts_path (grid : List (List Str)) (spangram : Str)
    (pinfo : PlacementInfo) (s : GameState) (p : Pos)
    (h : s.selectedCells = []) :
    (handleCellClick grid spangram pinfo s p).1.selectedCells = [p] := by
  simp [handleCellClick, h]

/-- Witness for C8 at a concrete click on the empty initial state. -/
theorem c8_first_click_starts_path_witness :
    initialGameState.selectedCells = [] ∧
      (handleCellClick demoGrid demoSpangram demoPinfo initialGameState (1, 1)).1.selectedCells =
        [(1, 1)] :=
  ⟨rfl, c8_first_click_starts_path demoGrid demoSpangram demoPinfo initialGameState (1, 1) rfl⟩

/-- C10: the selection path can contain the same position at two
different indices: the zig-zag click sequence (0,0), (1,1), (0,0) on a
fresh board leaves (0,0) selected twice in one path. -/
theorem c10_path_can_repeat_cell :
    (runClicks demoGrid demoSpangram demoPinfo initialGameState zigzagClicks).selectedCells =
      [(0, 0), (1, 1), (0, 0)] ∧
    ¬ (runClicks demoGrid demoSpangram demoPinfo
        initialGameState zigzagClicks).selectedCells.Nodup := by
  decide

/-- A matched placement is one of the placements of the table. -/
lemma findPlacement_mem {grid : List (List Str)} {spangram : Str} {pinfo : PlacementInfo}
    {cells : List Pos} {pl : Placement}
    (h : findPlacement grid spangram pinfo cells = some pl) :
    pl ∈ allPlacements spangram pinfo := by
  rw [findPlacement] at h
  exact List.mem_of_find?_eq_some h

/-- A state with the word CAT already found. -/
def catFoundState : GameState :=
  { initialGameState with foundWords := {("CAT").toList} }

/-- C4: a completion attempt on a non-empty path whose matched
placement's word is already among the found words changes neither the
found words nor the found paths, emits no success message, and sets the
message to the retry notice; no completion notice is scheduled. -/
theorem c4_refind_rejected (grid : List (List Str)) (spangram : Str)
    (pinfo : PlacementInfo) (cells : List Pos) (s : GameState) (pl : Placement)
    (hfind : findPlacement grid spangram pinfo cells = some pl)
    (hmem : pl.word ∈ s.foundWords)
    (hne : cells ≠ []) :
    checkForWord grid spangram pinfo cells s =
      ({ s with selectedCells := []
                messageText := tryAgainText
                messageType := some MsgType.info }, false) := by
  have hc : cells.isEmpty = false := by
    cases cells with
    | nil => exact absurd rfl hne
    | cons a t => rfl
  simp only [checkForWord, hfind, if_pos hmem, hc]
  simp

/-- Witness for C4: re-finding CAT along its exact path after CAT is
already found. -/
theorem c4_refind_rejected_witness :
    findPlacement demoGrid demoSpangram demoPinfo [(0, 0), (0, 1), (0, 2)] =
        some catPlacement ∧
    catPlacement.word ∈ catFoundState.foundWords ∧
    ([(0, 0), (0, 1), (0, 2)] : List Pos) ≠ [] ∧
    checkForWord demoGrid demoSpangram demoPinfo [(0, 0), (0, 1), (0, 2)] catFoundState =
      ({ catFoundState with selectedCells := []
                            messageText := tryAgainText
                            messageType := some MsgType.info }, false) :=
  ⟨by decide, by decide, by decide,
    c4_refind_rejected demoGrid demoSpangram demoPinfo [(0, 0), (0, 1), (0, 2)]
      catFoundState catPlacement (by decide) (by decide) (by decide)⟩

/-! Monotonicity of the found words and found paths. -/

/-- The words of the placement table, as a set. -/
def placementWords (spangram : Str) (pinfo : PlacementInfo) : Finset Str :=
  ((allPlacements spangram pinfo).map Placement.word).toFinset

lemma allPlacements_length (spangram : Str) (pinfo : PlacementInfo) :
    (allPlacements spangram pinfo).length = pinfo.words.length + 1 := by
  simp [allPlacements]

lemma subset_foldl_insert (cells : List Pos) : ∀ fp : Finset Str,
    fp ⊆ cells.foldl (fun a p => insert (posKey p) a) fp := by
  induction cells with
  | nil => intro fp; simp
  | cons c t ih =>
    intro fp
    simp only [List.foldl_cons]
    exact (Finset.subset_insert _ fp).trans (ih (insert (posKey c) fp))

/-- Validation either leaves the found words and found paths unchanged,
or inserts the word of one placement of the table and only enlarges the
found paths. -/
lemma checkForWord_found_spec (grid : List (List Str)) (spangram : Str)
    (pinfo : PlacementInfo) (cells : List Pos) (s : GameState) :
    ((checkForWord grid spangram pinfo cells s).1.foundWords = s.foundWords ∧
     (checkForWord grid spangram pinfo cells s).1.foundPaths = s.foundPaths) ∨
    (∃ pl ∈ allPlacements spangram pinfo,
      (checkForWord grid spangram pinfo cells s).1.foundWords = insert pl.word s.foundWords ∧
      s.foundPaths ⊆ (checkForWord grid spangram pinfo cells s).1.foundPaths) := by
  cases hfind : findPlacement grid spangram pinfo cells with
  | some pl =>
    by_cases hmem : pl.word ∈ s.foundWords
    · left
      simp only [checkForWord, hfind, if_pos hmem]
      by_cases hc : cells.isEmpty <;> simp [hc]
    · right
      refine ⟨pl, findPlacement_mem hfind, ?_, ?_⟩
      · simp [checkForWord, hfind, hmem]
      · simp only [checkForWord, hfind, if_neg hmem]
        exact subset_foldl_insert cells s.foundPaths
  | none =>
    left
    simp only [checkForWord, hfind]
    by_cases hc : cells.isEmpty <;> simp [hc]

/-- The click handler either leaves the found words and found paths
unchanged, or inserts the word of one placement of the table and only
enlarges the found paths. -/
lemma handleCellClick_found_spec (grid : List (List Str)) (spangram : Str)
    (pinfo : PlacementInfo) (s : GameState) (p : Pos) :
    ((handleCellClick grid spangram pinfo s p).1.foundWords = s.foundWords ∧
     (handleCellClick grid spangram pinfo s p).1.foundPaths = s.foundPaths) ∨
    (∃ pl ∈ allPlacements spangram pinfo,
      (handleCellClick grid spangram pinfo s p).1.foundWords = insert pl.word s.foundWords ∧
      s.foundPaths ⊆ (handleCellClick grid spangram pinfo s p).1.foundPaths) := by
  cases hlast : s.selectedCells.getLast? with
  | some lastCell =>
    by_cases heq : lastCell = p
    · simpa only [handleCellClick, hlast, if_pos heq] using
        checkForWord_found_spec grid spangram pinfo s.selectedCells s
    · by_cases hcond : (!isAdjacent lastCell p || decide (posKey p ∈ s.foundPaths)) = true
      · left
        simp [handleCellClick, hlast, heq, hcond]
      · left
        simp only [handleCellClick, hlast, if_neg heq]
        rw [if_neg (by simpa using hcond)]
        exact ⟨rfl, rfl⟩
  | none =>
    left
    simp [handleCellClick, hlast]

/-- The gesture-level click either leaves the found words and found
paths unchanged, or inserts the word of one placement of the table and
only enlarges the found paths. -/
lemma onCellClick_found_spec (grid : List (List Str)) (spangram : Str)
    (pinfo : PlacementInfo) (s : GameState) (p : Pos) :
    ((onCellClick grid spangram pinfo s p).1.foundWords = s.foundWords ∧
     (onCellClick grid spangram pinfo s p).1.foundPaths = s.foundPaths) ∨
    (∃ pl ∈ allPlacements spangram pinfo,
      (onCellClick grid spangram pinfo s p).1.foundWords = insert pl.word s.foundWords ∧
      s.foundPaths ⊆ (onCellClick grid spangram pinfo s p).1.foundPaths) := by
  by_cases h : posKey p ∈ s.foundPaths
  · left
    simp [onCellClick, h]
  · simpa only [onCellClick, if_neg h] using
      handleCellClick_found_spec grid spangram pinfo s p

lemma onCellClick_foundWords_mono (grid : List (List Str)) (spangram : Str)
    (pinfo : PlacementInfo) (s : GameState) (p : Pos) :
    s.foundWords ⊆ (onCellClick grid spangram pinfo s p).1.foundWords := by
  rcases onCellClick_found_spec grid spangram pinfo s p with ⟨h, _⟩ | ⟨pl, _, h, _⟩
  · rw [h]
  · rw [h]
    exact Finset.subset_insert _ _

lemma onCellClick_foundPaths_mono (grid : List (List Str)) (spangram : Str)
    (pinfo : PlacementInfo) (s : GameState) (p : Pos) :
    s.foundPaths ⊆ (onCellClick grid spangram pinfo s p).1.foundPaths := by
  rcases onCellClick_found_spec grid spangram pinfo s p with ⟨_, h⟩ | ⟨pl, _, _, h⟩
  · rw [h]
  · exact h

lemma onCellClick_foundWords_bound (grid : List (List Str)) (spangram : Str)
    (pinfo : PlacementInfo) (s : GameState) (p : Pos)
    (hW : s.foundWords ⊆ placementWords spangram pinfo) :
    (onCellClick grid spangram pinfo s p).1.foundWords ⊆ placementWords spangram pinfo := by
  rcases onCellClick_found_spec grid spangram pinfo s p with ⟨h, _⟩ | ⟨pl, hpl, h, _⟩
  · rw [h]; exact hW
  · rw [h]
    refine Finset.insert_subset ?_ hW
    simp only [placementWords, List.mem_toFinset, List.mem_map]
    exact ⟨pl, hpl, rfl⟩

lemma runClicks_foundWords_mono (grid : List (List Str)) (spangram : Str)
    (pinfo : PlacementInfo) (clicks : List Pos) : ∀ s : GameState,
    s.foundWords ⊆ (runClicks grid spangram pinfo s clicks).foundWords ∧
    s.foundPaths ⊆ (runClicks grid spangram pinfo s clicks).foundPaths := by
  induction clicks with
  | nil => intro s; exact ⟨Finset.Subset.refl _, Finset.Subset.refl _⟩
  | cons c t ih =>
    intro s
    constructor
    · exact (onCellClick_foundWords_mono grid spangram pinfo s c).trans
        (ih ((onCellClick grid spangram pinfo s c).1)).1
    · exact (onCellClick_foundPaths_mono grid spangram pinfo s c).trans
        (ih ((onCellClick grid spangram pinfo s c).1)).2

lemma runClicks_foundWords_bound (grid : List (List Str)) (spangram : Str)
    (pinfo : PlacementInfo) (clicks : List Pos) : ∀ s : GameState,
    s.foundWords ⊆ placementWords spangram pinfo →
    (runClicks grid spangram pinfo s clicks).foundWords ⊆ placementWords spangram pinfo := by
  induction clicks with
  | nil => intro s h; exact h
  | cons c t ih =>
    intro s h
    exact ih _ (onCellClick_foundWords_bound grid spangram pinfo s c h)

/-- C5: across any sequence of click gestures, the found words and the
found paths only grow, and starting from the fresh state the number of
found words never exceeds the number of theme words plus one. -/
theorem c5_monotone_progress (grid : List (List Str)) (spangram : Str)
    (pinfo : PlacementInfo) (words : List Str)
    (hw : pinfo.words.length = words.length)
    (clicks : List Pos) (s : GameState) :
    s.foundWords ⊆ (runClicks grid spangram pinfo s clicks).foundWords ∧
    s.foundPaths ⊆ (runClicks grid spangram pinfo s clicks).foundPaths ∧
    (runClicks grid spangram pinfo initialGameState clicks).foundWords.card ≤
      words.length + 1 := by
  refine ⟨(runClicks_foundWords_mono grid spangram pinfo clicks s).1,
    (runClicks_foundWords_mono grid spangram pinfo clicks s).2, ?_⟩
  have hsub : (runClicks grid spangram pinfo initialGameState clicks).foundWords ⊆
      placementWords spangram pinfo :=
    runClicks_foundWords_bound grid spangram pinfo clicks initialGameState
      (by simp [initialGameState])
  have h1 : (runClicks grid spangram pinfo initialGameState clicks).foundWords.card ≤
      (placementWords spangram pinfo).card := Finset.card_le_card hsub
  have h2 : (placementWords spangram pinfo).card ≤ (allPlacements spangram pinfo).length := by
    have := List.toFinset_card_le ((allPlacements spangram pinfo).map Placement.word)
    simpa [placementWords] using this
  rw [allPlacements_length, hw] at h2
  omega

/-- Witness for C5 with the demo puzzle, a concrete click sequence and a
concrete start state. -/
theorem c5_monotone_progress_witness :
    demoPinfo.words.length = [("CAT").toList].length ∧
    (catFoundState.foundWords ⊆
      (runClicks demoGrid demoSpangram demoPinfo catFoundState zigzagClicks).foundWords ∧
    catFoundState.foundPaths ⊆
      (runClicks demoGrid demoSpangram demoPinfo catFoundState zigzagClicks).foundPaths ∧
    (runClicks demoGrid demoSpangram demoPinfo initialGameState zigzagClicks).foundWords.card ≤
      [("CAT").toList].length + 1) :=
  ⟨rfl, c5_monotone_progress demoGrid demoSpangram demoPinfo [("CAT").toList] rfl
    zigzagClicks catFoundState⟩

/-! State replacement, completion notice, provider failure. -/

/-- A state carrying progress and a stale transient message. -/
def staleMessageState : GameState :=
  { selectedCells := [(0, 0)]
    foundWords := {("CAT").toList}
    foundPaths := {posKey (0, 0)}
    messageText := tryAgainText
    messageType := some MsgType.info }

/-- Counterexample for C6: the board-replacement reset empties the
selection, the found words and the found paths, but it does not clear
the transient message, contradicting the claim that the whole selection
state including the message is reset. -/
theorem c6_reset_counterexample :
    (resetOnNewBoard staleMessageState).selectedCells = [] ∧
    (resetOnNewBoard staleMessageState).foundWords = ∅ ∧
    (resetOnNewBoard staleMessageState).foundPaths = ∅ ∧
    ¬((resetOnNewBoard staleMessageState).messageText = [] ∧
      (resetOnNewBoard staleMessageState).messageType = none) := by
  refine ⟨rfl, rfl, rfl, ?_⟩
  intro h
  have h2 := h.2
  simp [resetOnNewBoard, staleMessageState] at h2

/-- C6 (amended): installing a new board through a successful generate
resets the selection, the found words and the found paths of the game
state atomically, while the transient message keeps its previous
value. -/
theorem c6_new_board_resets_selection (s : ContainerState) (b : Board)
    (hk : s.apiKey ≠ []) :
    (handleGenerateGame s (Except.ok b)).board = some b ∧
    (handleGenerateGame s (Except.ok b)).game.selectedCells = [] ∧
    (handleGenerateGame s (Except.ok b)).game.foundWords = ∅ ∧
    (handleGenerateGame s (Except.ok b)).game.foundPaths = ∅ ∧
    (handleGenerateGame s (Except.ok b)).game.messageText = s.game.messageText ∧
    (handleGenerateGame s (Except.ok b)).game.messageType = s.game.messageType := by
  have hk2 : s.apiKey.isEmpty = false := by
    cases hA : s.apiKey with
    | nil => exact absurd hA hk
    | cons a t => rfl
  simp [handleGenerateGame, hk2, resetOnNewBoard]

/-- A concrete board assembled from the demo puzzle. -/
def demoBoard : Board :=
  { grid := demoGrid
    words := [("CAT").toList]
    spangram := demoSpangram
    theme := ("Pets").toList
    placementInfo := demoPinfo }

/-- A concrete container state holding a stale game in progress. -/
def demoContainer : ContainerState :=
  { apiKey := ("key").toList
    board := none
    error := none
    isLoading := true
    game := staleMessageState }

/-- Witness for the amended C6 at a concrete container state. -/
theorem c6_new_board_resets_selection_witness :
    demoContainer.apiKey ≠ [] ∧
    ((handleGenerateGame demoContainer (Except.ok demoBoard)).board = some demoBoard ∧
    (handleGenerateGame demoContainer (Except.ok demoBoard)).game.selectedCells = [] ∧
    (handleGenerateGame demoContainer (Except.ok demoBoard)).game.foundWords = ∅ ∧
    (handleGenerateGame demoContainer (Except.ok demoBoard)).game.foundPaths = ∅ ∧
    (handleGenerateGame demoContainer (Except.ok demoBoard)).game.messageText =
      demoContainer.game.messageText ∧
    (handleGenerateGame demoContainer (Except.ok demoBoard)).game.messageType =
      demoContainer.game.messageType) := by
  refine ⟨by decide, ?_⟩
  have h := c6_new_board_resets_selection demoContainer demoBoard (by decide)
  exact ⟨h.1, h.2.1, h.2.2.1, h.2.2.2.1, h.2.2.2.2.1, h.2.2.2.2.2⟩

/-- C7: the delayed all-words-found notice is scheduled exactly when a
successful find brings the number of found words to the number of theme
words plus one, and the notice firing only updates the transient
message, leaving the selection, the found words and the found paths
untouched. -/
theorem c7_completion_notice (grid : List (List Str)) (spangram : Str)
    (pinfo : PlacementInfo) (words : List Str)
    (hw : pinfo.words.length = words.length)
    (cells : List Pos) (s : GameState) :
    ((checkForWord grid spangram pinfo cells s).2 = true ↔
      ∃ pl, findPlacement grid spangram pinfo cells = some pl ∧
        pl.word ∉ s.foundWords ∧
        (checkForWord grid spangram pinfo cells s).1.foundWords.card = words.length + 1) ∧
    ∀ st : GameState,
      (fireAllFoundNotice st).selectedCells = st.selectedCells ∧
      (fireAllFoundNotice st).foundWords = st.foundWords ∧
      (fireAllFoundNotice st).foundPaths = st.foundPaths := by
  constructor
  · cases hfind : findPlacement grid spangram pinfo cells with
    | some pl =>
      by_cases hmem : pl.word ∈ s.foundWords
      · constructor
        · intro habs
          exfalso
          simp only [checkForWord, hfind, if_pos hmem] at habs
          by_cases hc : cells.isEmpty <;> simp [hc] at habs
        · rintro ⟨pl', hfind', hnot, _⟩
          injection hfind' with h
          subst h
          exact absurd hmem hnot
      · simp only [checkForWord, hfind, if_neg hmem]
        constructor
        · intro hb
          rw [beq_iff_eq, allPlacements_length, hw] at hb
          exact ⟨pl, rfl, hmem, hb⟩
        · rintro ⟨pl', hpl', hnot, hcard⟩
          rw [beq_iff_eq, allPlacements_length, hw]
          exact hcard
    | none =>
      constructor
      · intro habs
        exfalso
        simp only [checkForWord, hfind] at habs
        by_cases hc : cells.isEmpty <;> simp [hc] at habs
      · rintro ⟨pl', hfind', _, _⟩
        exact Option.noConfusion hfind'
  · intro st
    exact ⟨rfl, rfl, rfl⟩

/-- Witness for C7 with the demo puzzle. -/
theorem c7_completion_notice_witness :
    demoPinfo.words.length = [("CAT").toList].length ∧
    (((checkForWord demoGrid demoSpangram demoPinfo [(0, 0), (0, 1), (0, 2)]
        catFoundState).2 = true ↔
      ∃ pl, findPlacement demoGrid demoSpangram demoPinfo [(0, 0), (0, 1), (0, 2)] = some pl ∧
        pl.word ∉ catFoundState.foundWords ∧
        (checkForWord demoGrid demoSpangram demoPinfo [(0, 0), (0, 1), (0, 2)]
          catFoundState).1.foundWords.card = [("CAT").toList].length + 1) ∧
    ∀ st : GameState,
      (fireAllFoundNotice st).selectedCells = st.selectedCells ∧
      (fireAllFoundNotice st).foundWords = st.foundWords ∧
      (fireAllFoundNotice st).foundPaths = st.foundPaths) :=
  ⟨rfl, c7_completion_notice demoGrid demoSpangram demoPinfo [("CAT").toList] rfl
    [(0, 0), (0, 1), (0, 2)] catFoundState⟩

/-- C9: when the provider rejects the request, the container surfaces
the error message and leaves the board and the whole game state
untouched. -/
theorem c9_failure_preserves_state (s : ContainerState) (resp : ApiResponse)
    (hk : s.apiKey ≠ []) (hfail : resp.ok = false) :
    ∃ msg : Str,
      generateGame resp = Except.error msg ∧
      (handleGenerateGame s (generateGame resp)).board = s.board ∧
      (handleGenerateGame s (generateGame resp)).game = s.game ∧
      (handleGenerateGame s (generateGame resp)).error = some msg := by
  have hk2 : s.apiKey.isEmpty = false := by
    cases hA : s.apiKey with
    | nil => exact absurd hA hk
    | cons a t => rfl
  have hg : generateGame resp =
      Except.error
        (match resp.detail with
         | some d => d
         | none => failedGenerateText resp.statusText) := by
    simp [generateGame, hfail]
  exact ⟨_, hg, by simp [handleGenerateGame, hg, hk2], by simp [handleGenerateGame, hg, hk2],
    by simp [handleGenerateGame, hg, hk2]⟩

/-- A concrete failing provider response. -/
def failingResponse : ApiResponse :=
  { ok := false
    statusText := ("Unauthorized").toList
    detail := none
    dataBoard := []
    dataWords := []
    dataSpangram := []
    dataTheme := []
    dataPlacementSpangram := catPlacement
    dataPlacementWords := [] }

/-- Witness for C9 at a concrete failing request. -/
theorem c9_failure_preserves_state_witness :
    demoContainer.apiKey ≠ [] ∧ failingResponse.ok = false ∧
    ∃ msg : Str,
      generateGame failingResponse = Except.error msg ∧
      (handleGenerateGame demoContainer (generateGame failingResponse)).board =
        demoContainer.board ∧
      (handleGenerateGame demoContainer (generateGame failingResponse)).game =
        demoContainer.game ∧
      (handleGenerateGame demoContainer (generateGame failingResponse)).error = some msg :=
  ⟨by decide, rfl, c9_failure_preserves_state demoContainer failingResponse (by decide) rfl⟩

end StrandsUp
